import Mathlib

/-!
Shallow embedding of the NVIDIA Tegra matrix keyboard controller driver
(drivers/input/keyboard/tegra-kbc.c): the FIFO scan decoder, the ghost
filter, the key-state tracker, the continuous-poll timer routine, the
interrupt handler, the wake-key mask setup and device stop.

Hardware register reads become explicit parameters (the two key-entry FIFO
words, the interrupt-status word); register writes and timer arming become
explicit fields of result structures.  Machine integers are modelled as
Nat; byte lanes are extracted with explicit masking, exactly as the C code
does with shifts and bitwise and.
-/

namespace TegraKbc

/-- Constant KBC_ROW_SHIFT from tegra-kbc.c. -/
def KBC_ROW_SHIFT : Nat := 3

/-- Constant KBC_MAX_KPENT from the controller interface header
(linux/input/tegra_kbc.h, outside src/): 8 key-entry byte lanes per FIFO
read cycle, i.e. the MAX_SIMULTANEOUS_KEYS of the spec. -/
def KBC_MAX_KPENT : Nat := 8

/-- Constant KBC_MAX_ROW from the controller interface header
(linux/input/tegra_kbc.h, outside src/): 16 matrix rows. -/
def KBC_MAX_ROW : Nat := 16

/-- Constant KBC_MAX_COL from the controller interface header
(linux/input/tegra_kbc.h, outside src/): 8 matrix columns. -/
def KBC_MAX_COL : Nat := 8

/-- Constant KBC_MAX_KEY = KBC_MAX_ROW * KBC_MAX_COL from the controller
interface header: size of one keymap layer, the MAX_KEY of the spec. -/
def KBC_MAX_KEY : Nat := KBC_MAX_ROW * KBC_MAX_COL

/-- Constant KEY_FN (0x1d0) from the input key-code header
(linux/input.h, outside src/): the output code of the alternate-layer key. -/
def KEY_FN : Nat := 464

/-- Events sent to the input-event sink: input_report_key becomes
Event.key code pressed, input_event(EV_MSC, MSC_SCAN, sc) becomes
Event.mscScan sc, and input_sync becomes Event.sync. -/
inductive Event where
  | key : Nat → Bool → Event
  | mscScan : Nat → Event
  | sync : Event
deriving DecidableEq, Repr

/-- The driver state fields of struct tegra_kbc that the claims touch.
current_keys together with num_pressed_keys is modelled as one list of
output codes (the first num_pressed_keys entries of the C array, in order);
the keymap array keycode[KBC_MAX_KEY * 2] is modelled as a function. -/
structure Kbc where
  use_fn_map : Bool
  use_ghost_filter : Bool
  keycode : Nat → Nat
  current_keys : List Nat
  repoll_dly : Nat
  cp_dly_jiffies : Nat
  keypress_caused_wake : Bool

/-- Byte lanes of one 32-bit FIFO word, low lane first: the loop in
tegra_kbc_report_keys consumes val with val >>= 8 after each lane. -/
def wordBytes (w : Nat) : List Nat :=
  [w &&& 255, (w >>> 8) &&& 255, (w >>> 16) &&& 255, (w >>> 24) &&& 255]

/-- The KBC_MAX_KPENT byte lanes of one FIFO read cycle: the loop reads
KBC_KP_ENT0_0 at i = 0 and KBC_KP_ENT1_0 at i = 4, so exactly two words. -/
def fifoBytes (w0 w1 : Nat) : List Nat :=
  wordBytes w0 ++ wordBytes w1

/-- Decode loop of tegra_kbc_report_keys (the first for over KBC_MAX_KPENT
lanes): a lane with bit 7 clear is skipped; a valid lane yields the scan
code MATRIX_SCAN_CODE(row, col, KBC_ROW_SHIFT) = (row << 3) + col and its
keymap entry; a lane whose keymap entry is KEY_FN while use_fn_map is set
is consumed (num_down is not incremented) and only sets the fn flag.
Returns the (scancode, keycode) entries in lane order plus the fn flag. -/
def decodeEntries (keymap : Nat → Nat) (useFn : Bool) :
    List Nat → List (Nat × Nat) × Bool
  | [] => ([], false)
  | b :: rest =>
    let restRes := decodeEntries keymap useFn rest
    if b &&& 128 ≠ 0 then
      let col := b &&& 7
      let row := (b >>> 3) &&& 15
      let sc := (row <<< KBC_ROW_SHIFT) + col
      let kc := keymap sc
      if kc = KEY_FN ∧ useFn = true then (restRes.1, true)
      else ((sc, kc) :: restRes.1, restRes.2)
    else restRes

/-- Ghost-detection double loop of tegra_kbc_report_keys: for each entry i,
scan the later entries j > i; any j in the same column sets the same-column
flag, any j in the same row sets the same-row flag (column = scancode & 7,
row = scancode >> KBC_ROW_SHIFT).  Returns (key_in_same_col,
key_in_same_row). -/
def ghostLoop : List Nat → Bool → Bool → Bool × Bool
  | [], sameCol, sameRow => (sameCol, sameRow)
  | s :: rest, sameCol, sameRow =>
    ghostLoop rest
      (sameCol || rest.any (fun t => t &&& 7 == s &&& 7))
      (sameRow || rest.any (fun t => t >>> KBC_ROW_SHIFT == s >>> KBC_ROW_SHIFT))

/-- Loop of tegra_kbc_report_released_keys: for each old key, a linear
search of the new keys; when the search finds no match, a release event is
emitted.  Old keys are visited in stored order. -/
def tegra_kbc_report_released_keys (old new : List Nat) : List Event :=
  match old with
  | [] => []
  | k :: rest =>
    if new.contains k then tegra_kbc_report_released_keys rest new
    else Event.key k false :: tegra_kbc_report_released_keys rest new

/-- Loop of tegra_kbc_report_pressed_keys: for each (scancode, keycode)
entry in order, an EV_MSC/MSC_SCAN event followed by a press event. -/
def tegra_kbc_report_pressed_keys : List (Nat × Nat) → List Event
  | [] => []
  | e :: rest =>
    Event.mscScan e.1 :: Event.key e.2 true :: tegra_kbc_report_pressed_keys rest

/-- Decode of the current FIFO sample (words w0, w1) for a given driver
state: the entries and the fn flag of tegra_kbc_report_keys. -/
def sampleDecode (kbc : Kbc) (w0 w1 : Nat) : List (Nat × Nat) × Bool :=
  decodeEntries kbc.keycode kbc.use_fn_map (fifoBytes w0 w1)

/-- Fn-translation step of tegra_kbc_report_keys: when the fn flag is set,
every remaining scancode gets KBC_MAX_KEY added and its keycode is looked
up again at the shifted scancode; otherwise the entries are unchanged. -/
def sampleFinalEntries (kbc : Kbc) (w0 w1 : Nat) : List (Nat × Nat) :=
  if (sampleDecode kbc w0 w1).2 then
    (sampleDecode kbc w0 w1).1.map
      (fun e => (e.1 + KBC_MAX_KEY, kbc.keycode (e.1 + KBC_MAX_KEY)))
  else (sampleDecode kbc w0 w1).1

/-- Ghost-filter verdict of tegra_kbc_report_keys: the double loop runs
only when use_ghost_filter is set and num_down >= 3, and the sample is
dropped when both the same-column and the same-row flag come out true.
The loop runs over the scancodes before the fn translation. -/
def ghostDiscard (kbc : Kbc) (w0 w1 : Nat) : Bool :=
  let entries := (sampleDecode kbc w0 w1).1
  if kbc.use_ghost_filter = true ∧ 3 ≤ entries.length then
    let p := ghostLoop (entries.map Prod.fst) false false
    p.1 && p.2
  else false

/-- Body of tegra_kbc_report_keys: decode the sample, run the ghost
filter, and either drop the sample (no events, state unchanged) or emit
the releases of the vanished keys, then the scan-code/press pairs, then a
sync, and store the new keycodes as current_keys (the memcpy plus the
num_pressed_keys update).  Returns the emitted events and the new state. -/
def tegra_kbc_report_keys (kbc : Kbc) (w0 w1 : Nat) : List Event × Kbc :=
  if ghostDiscard kbc w0 w1 then ([], kbc)
  else
    let keycodes := (sampleFinalEntries kbc w0 w1).map Prod.snd
    (tegra_kbc_report_released_keys kbc.current_keys keycodes ++
       tegra_kbc_report_pressed_keys (sampleFinalEntries kbc w0 w1) ++
       [Event.sync],
     { kbc with current_keys := keycodes })

/-- Outcome of one run of tegra_kbc_keypress_timer: the events sent to the
sink, the new driver state, the delay (in ms) passed to mod_timer when the
timer is re-armed, and whether tegra_kbc_set_fifo_interrupt(kbc, true) was
called. -/
structure TimerResult where
  events : List Event
  kbc : Kbc
  rearm_delay : Option Nat
  fifo_int_enable : Bool

/-- Body of tegra_kbc_keypress_timer: val = (KBC_INT_0 >> 4) & 0xf is the
FIFO occupancy; when non-zero the sample is reported and the timer is
re-armed after repoll_dly ms if val == 1, else after 1 ms; when zero every
current key gets a release, a sync follows, num_pressed_keys becomes 0 and
the FIFO interrupt is re-enabled (no re-arm). -/
def tegra_kbc_keypress_timer (kbc : Kbc) (int0 w0 w1 : Nat) : TimerResult :=
  let val := (int0 >>> 4) &&& 15
  if val ≠ 0 then
    let r := tegra_kbc_report_keys kbc w0 w1
    { events := r.1, kbc := r.2,
      rearm_delay := some (if val = 1 then kbc.repoll_dly else 1),
      fifo_int_enable := false }
  else
    { events := kbc.current_keys.map (fun k => Event.key k false) ++ [Event.sync],
      kbc := { kbc with current_keys := [] },
      rearm_delay := none,
      fifo_int_enable := true }

/-- Outcome of one run of tegra_kbc_isr: the value written back to
KBC_INT_0 (write-1-to-clear acknowledge), the new driver state, whether
tegra_kbc_set_fifo_interrupt(kbc, false) was called, and the delay passed
to mod_timer when the timer was armed. -/
structure IsrResult where
  ack : Nat
  kbc : Kbc
  fifo_int_disable : Bool
  timer_armed : Option Nat

/-- Body of tegra_kbc_isr: read KBC_INT_0, write the same value back; on
the FIFO-threshold status bit (bit 2) disable the FIFO interrupt and arm
the timer after cp_dly_jiffies; else on the keypress status bit (bit 0)
record keypress_caused_wake; else do nothing further. -/
def tegra_kbc_isr (kbc : Kbc) (int0 : Nat) : IsrResult :=
  if int0 &&& 4 ≠ 0 then
    { ack := int0, kbc := kbc, fifo_int_disable := true,
      timer_armed := some kbc.cp_dly_jiffies }
  else if int0 &&& 1 ≠ 0 then
    { ack := int0, kbc := { kbc with keypress_caused_wake := true },
      fifo_int_disable := false, timer_armed := none }
  else
    { ack := int0, kbc := kbc, fifo_int_disable := false, timer_armed := none }

/-- Body of tegra_kbc_setup_wakekeys, as the per-row wake-mask register
contents it leaves behind (row index to 32-bit word): every row register
is first written rst_val = all-ones when filter is on and the wake list is
non-empty, else 0; then, when filter is on, each wake entry (row, col)
clears bit col of its row register with a read-modify-write of
val & ~(1 << col). -/
def tegra_kbc_setup_wakekeys (wake_cfg : List (Nat × Nat)) (filter : Bool) :
    Nat → Nat :=
  let rst_val : Nat := if filter = true ∧ wake_cfg.length ≠ 0 then 2 ^ 32 - 1 else 0
  let masks : Nat → Nat := fun _ => rst_val
  if filter then
    wake_cfg.foldl
      (fun ms rc => fun r =>
        if r = rc.1 then ms rc.1 &&& (2 ^ 32 - 1 - (1 <<< rc.2)) else ms r)
      masks
  else masks

/-- The device state touched by tegra_kbc_stop: the KBC_CONTROL_0 register
word, whether the interrupt line is enabled, whether the timer is pending,
whether the clock is running, and is_open. -/
structure Dev where
  control : Nat
  irq_enabled : Bool
  timer_pending : Bool
  clk_enabled : Bool
  is_open : Nat
deriving DecidableEq, Repr

/-- Body of tegra_kbc_stop: clear bit 0 (KBC_CONTROL_KBC_EN) of
KBC_CONTROL_0 with val &= ~1, disable the interrupt line, cancel the timer
(del_timer_sync), stop the clock, and set is_open = 0. -/
def tegra_kbc_stop (d : Dev) : Dev :=
  { control := d.control &&& (2 ^ 32 - 2),
    irq_enabled := false,
    timer_pending := false,
    clk_enabled := false,
    is_open := 0 }

/-- Spec-side description of the release phase of a batch: one release
event for each output code of the old set that is absent from the new set,
in the stored order of the old set. -/
def releasesSpec (old new : List Nat) : List Event :=
  (old.filter (fun k => !(new.contains k))).map (fun k => Event.key k false)

/-- Spec-side description of the press phase of a batch: for each entry of
the new set in order, a raw scan-code auxiliary event followed by a press
event. -/
def pressesSpec (entries : List (Nat × Nat)) : List Event :=
  entries.flatMap (fun e => [Event.mscScan e.1, Event.key e.2 true])

/-- Spec-side: some unordered pair of list positions agrees under f (used
with the row and the column of a scan code for the ghost condition). -/
def hasPairSharing (f : Nat → Nat) : List Nat → Bool
  | [] => false
  | x :: rest => rest.any (fun y => f y == f x) || hasPairSharing f rest

/-- Spec-side scan-code of a FIFO byte lane: bits 3 to 6 are the row,
bits 0 to 2 the column, and the code is (row << ROW_SHIFT) | column. -/
def specScanCode (b : Nat) : Nat :=
  (((b >>> 3) &&& 15) <<< KBC_ROW_SHIFT) ||| (b &&& 7)

/-- Tracking step for the key-state invariant: a press or release event
for code c overrides the tracked bit for c, every other event leaves it. -/
def trackKey (c : Nat) (b : Bool) : Event → Bool
  | Event.key d v => if d = c then v else b
  | _ => b

/-- Whether, after the given events, code c counts as pressed: the last
press/release event for c decides, and with no such event the initial
tracked bit stands.  This is the observer of the CurrentKeys invariant. -/
def netPressed (init : Bool) (events : List Event) (c : Nat) : Bool :=
  events.foldl (trackKey c) init

/-- Concrete driver state used by the witness theorems. -/
def sampleKbc : Kbc :=
  { use_fn_map := false
    use_ghost_filter := true
    keycode := fun sc => sc + 1
    current_keys := [5]
    repoll_dly := 10
    cp_dly_jiffies := 2
    keypress_caused_wake := false }

theorem released_keys_eq (old new : List Nat) :
    tegra_kbc_report_released_keys old new = releasesSpec old new := by
  induction old with
  | nil => rfl
  | cons k rest ih =>
    by_cases h : k ∈ new <;>
      simp [tegra_kbc_report_released_keys, releasesSpec, List.filter_cons, h] <;>
      simpa [releasesSpec] using ih

theorem pressed_keys_eq (entries : List (Nat × Nat)) :
    tegra_kbc_report_pressed_keys entries = pressesSpec entries := by
  induction entries with
  | nil => rfl
  | cons e rest ih =>
    simp [tegra_kbc_report_pressed_keys, pressesSpec] at ih ⊢
    exact ih

theorem ghostLoop_eq (l : List Nat) (c r : Bool) :
    ghostLoop l c r =
      (c || hasPairSharing (fun s => s &&& 7) l,
       r || hasPairSharing (fun s => s >>> KBC_ROW_SHIFT) l) := by
  induction l generalizing c r with
  | nil => simp [ghostLoop, hasPairSharing]
  | cons s rest ih =>
    simp [ghostLoop, hasPairSharing, ih, Bool.or_assoc]

theorem netPressed_cons (b : Bool) (e : Event) (es : List Event) (c : Nat) :
    netPressed b (e :: es) c = netPressed (trackKey c b e) es c := rfl

theorem netPressed_append (b : Bool) (es1 es2 : List Event) (c : Nat) :
    netPressed b (es1 ++ es2) c = netPressed (netPressed b es1 c) es2 c :=
  List.foldl_append _ _ _ _

theorem netPressed_released (old new : List Nat) (b : Bool) (c : Nat) :
    netPressed b (tegra_kbc_report_released_keys old new) c =
      (b && !(old.contains c && !(new.contains c))) := by
  induction old generalizing b with
  | nil => simp [tegra_kbc_report_released_keys, netPressed]
  | cons k rest ih =>
    by_cases hk : k ∈ new <;> by_cases hck : c = k
    · subst hck
      simp [tegra_kbc_report_released_keys, hk, ih]
    · simp [tegra_kbc_report_released_keys, hk, ih, hck]
    · subst hck
      simp [tegra_kbc_report_released_keys, hk, netPressed_cons, trackKey, ih]
    · have hkc : ¬ k = c := fun hh => hck hh.symm
      simp [tegra_kbc_report_released_keys, hk, netPressed_cons, trackKey,
        hck, hkc, ih]

theorem netPressed_pressed (entries : List (Nat × Nat)) (b : Bool) (c : Nat) :
    netPressed b (tegra_kbc_report_pressed_keys entries) c =
      (b || (entries.map Prod.snd).contains c) := by
  induction entries generalizing b with
  | nil => simp [tegra_kbc_report_pressed_keys, netPressed]
  | cons e rest ih =>
    by_cases h : e.2 = c
    · simp [tegra_kbc_report_pressed_keys, netPressed_cons, trackKey, h, ih]
    · have h2 : ¬ c = e.2 := fun hh => h hh.symm
      have h3 : (c == e.2) = false := by simpa using h2
      simp [tegra_kbc_report_pressed_keys, netPressed_cons, trackKey, h, h2, h3, ih]

theorem netPressed_release_all (old : List Nat) (b : Bool) (c : Nat) :
    netPressed b (old.map (fun k => Event.key k false)) c =
      (b && !(old.contains c)) := by
  induction old generalizing b with
  | nil => simp [netPressed]
  | cons k rest ih =>
    by_cases h : k = c
    · subst h
      simp [netPressed_cons, trackKey, ih]
    · have h2 : ¬ c = k := fun hh => h hh.symm
      simp [netPressed_cons, trackKey, h, h2, ih]

theorem netPressed_sync (b : Bool) (c : Nat) :
    netPressed b [Event.sync] c = b := rfl

theorem report_keys_tracks (kbc : Kbc) (w0 w1 c : Nat) :
    ((tegra_kbc_report_keys kbc w0 w1).2.current_keys.contains c) =
      netPressed (kbc.current_keys.contains c)
        (tegra_kbc_report_keys kbc w0 w1).1 c := by
  by_cases hg : ghostDiscard kbc w0 w1
  · simp [tegra_kbc_report_keys, hg, netPressed]
  · simp only [tegra_kbc_report_keys, hg, Bool.false_eq_true, if_false]
    rw [netPressed_append, netPressed_append, netPressed_released,
      netPressed_pressed, netPressed_sync]
    cases hO : kbc.current_keys.contains c <;>
      cases hK : ((sampleFinalEntries kbc w0 w1).map Prod.snd).contains c <;>
      simp [hO, hK]

theorem keypress_timer_tracks (kbc : Kbc) (int0 w0 w1 c : Nat) :
    ((tegra_kbc_keypress_timer kbc int0 w0 w1).kbc.current_keys.contains c) =
      netPressed (kbc.current_keys.contains c)
        (tegra_kbc_keypress_timer kbc int0 w0 w1).events c := by
  by_cases h : (int0 >>> 4) &&& 15 = 0
  · simp only [tegra_kbc_keypress_timer, h, ne_eq, not_true_eq_false, if_false]
    rw [netPressed_append, netPressed_release_all, netPressed_sync]
    cases hO : kbc.current_keys.contains c <;> simp [hO]
  · simp only [tegra_kbc_keypress_timer, h, ne_eq, not_false_eq_true, if_true]
    exact report_keys_tracks kbc w0 w1 c

set_option maxRecDepth 8192 in
theorem byte_scan_eq : ∀ b < 256,
    (((b >>> 3) &&& 15) <<< KBC_ROW_SHIFT) + (b &&& 7) = specScanCode b := by
  decide

set_option maxRecDepth 8192 in
theorem byte_valid_eq : ∀ b < 256, decide (b &&& 128 ≠ 0) = b.testBit 7 := by
  decide

theorem fifoBytes_bound (w0 w1 : Nat) : ∀ b ∈ fifoBytes w0 w1, b < 256 := by
  intro b hb
  have h255 : ∀ x : Nat, x &&& 255 < 256 :=
    fun x => Nat.lt_succ_of_le Nat.and_le_right
  simp [fifoBytes, wordBytes] at hb
  rcases hb with h | h | h | h | h | h | h | h <;> subst h <;> exact h255 _

theorem decodeEntries_fst_eq (keymap : Nat → Nat) (useFn : Bool) (l : List Nat)
    (hb : ∀ b ∈ l, b < 256) :
    (decodeEntries keymap useFn l).1 =
      ((l.filter (fun b => b.testBit 7)).map
          (fun b => (specScanCode b, keymap (specScanCode b)))).filter
        (fun e => !(useFn && e.2 == KEY_FN)) := by
  revert hb
  induction l with
  | nil => intro _; rfl
  | cons b rest ih =>
    intro hb
    have hb0 : b < 256 := hb b (List.mem_cons_self _ _)
    have hbr : ∀ x ∈ rest, x < 256 := fun x hx => hb x (List.mem_cons_of_mem _ hx)
    have hscan := byte_scan_eq b hb0
    have hvalid := byte_valid_eq b hb0
    by_cases hv : b &&& 128 ≠ 0
    · have hvt : b.testBit 7 = true := by rw [← hvalid]; simpa using hv
      simp only [decodeEntries]
      rw [hscan, if_pos hv]
      cases useFn
      · rw [if_neg (fun hh => by simpa using hh.2)]
        simp [hvt, ih hbr]
      · by_cases hfn : keymap (specScanCode b) = KEY_FN
        · have hfnb : (keymap (specScanCode b) == KEY_FN) = true := by
            simpa using hfn
          rw [if_pos ⟨hfn, rfl⟩]
          simp [hvt, hfnb, ih hbr]
        · have hfnb : (keymap (specScanCode b) == KEY_FN) = false := by
            simpa using hfn
          rw [if_neg (fun hh => hfn hh.1)]
          simp [hvt, hfnb, ih hbr]
    · have hvf : b.testBit 7 = false := by rw [← hvalid]; simpa using hv
      simp only [decodeEntries]
      rw [if_neg hv]
      simp [hvf, ih hbr]

theorem decodeEntries_snd_eq (keymap : Nat → Nat) (useFn : Bool) (l : List Nat)
    (hb : ∀ b ∈ l, b < 256) :
    (decodeEntries keymap useFn l).2 =
      l.any (fun b => b.testBit 7 && (useFn && keymap (specScanCode b) == KEY_FN)) := by
  revert hb
  induction l with
  | nil => intro _; rfl
  | cons b rest ih =>
    intro hb
    have hb0 : b < 256 := hb b (List.mem_cons_self _ _)
    have hbr : ∀ x ∈ rest, x < 256 := fun x hx => hb x (List.mem_cons_of_mem _ hx)
    have hscan := byte_scan_eq b hb0
    have hvalid := byte_valid_eq b hb0
    by_cases hv : b &&& 128 ≠ 0
    · have hvt : b.testBit 7 = true := by rw [← hvalid]; simpa using hv
      simp only [decodeEntries]
      rw [hscan, if_pos hv]
      cases useFn
      · rw [if_neg (fun hh => by simpa using hh.2)]
        simp [hvt, ih hbr]
      · by_cases hfn : keymap (specScanCode b) = KEY_FN
        · have hfnb : (keymap (specScanCode b) == KEY_FN) = true := by
            simpa using hfn
          rw [if_pos ⟨hfn, rfl⟩]
          simp [hvt, hfnb]
        · have hfnb : (keymap (specScanCode b) == KEY_FN) = false := by
            simpa using hfn
          rw [if_neg (fun hh => hfn hh.1)]
          simp [hvt, hfnb, ih hbr]
    · have hvf : b.testBit 7 = false := by rw [← hvalid]; simpa using hv
      simp only [decodeEntries]
      rw [if_neg hv]
      simp [hvf, ih hbr]

set_option maxRecDepth 8192 in
theorem wake_mask_bit : ∀ c < 32, ∀ i < 32,
    ((4294967295 : Nat) - 1 <<< c).testBit i = (i != c) := by
  decide

theorem ones_bit : ∀ i < 32, (4294967295 : Nat).testBit i = true := by
  decide

theorem wakekeys_foldl_bit (cfg : List (Nat × Nat)) (ms : Nat → Nat) (r c : Nat)
    (hc : c < 32) (hcfg : ∀ p ∈ cfg, p.2 < 32) :
    ((cfg.foldl
        (fun ms rc => fun row =>
          if row = rc.1 then ms rc.1 &&& (2 ^ 32 - 1 - (1 <<< rc.2)) else ms row)
        ms) r).testBit c =
      ((ms r).testBit c && !(decide ((r, c) ∈ cfg))) := by
  revert hcfg
  induction cfg generalizing ms with
  | nil => intro _; simp
  | cons p rest ih =>
    intro hcfg
    obtain ⟨a, b⟩ := p
    have hb : b < 32 := hcfg (a, b) (List.mem_cons_self _ _)
    have hrest : ∀ q ∈ rest, q.2 < 32 :=
      fun q hq => hcfg q (List.mem_cons_of_mem _ hq)
    rw [List.foldl_cons, ih _ hrest]
    have hmb := wake_mask_bit b hb c hc
    by_cases hr : r = a
    · subst hr
      by_cases hcb : c = b
      · subst hcb
        simp [Nat.testBit_land, hmb, List.mem_cons]
      · have hne : (c != b) = true := by simpa using hcb
        simp [Nat.testBit_land, hmb, hne, List.mem_cons, Prod.ext_iff, hcb]
    · simp [List.mem_cons, Prod.ext_iff, hr]

/-- Claim C8: after tegra_kbc_setup_wakekeys runs, a wake-mask bit (row r,
column c) is set (1 = blocked) exactly when filtering is active, the
configured wake list is non-empty, and (r, c) is not in the wake list; in
particular with filtering inactive or an empty list every bit is 0 (all
positions wake-capable), and with filtering active and a non-empty list a
bit is 0 iff its position is in the wake list. -/
theorem setup_wakekeys_mask (wake_cfg : List (Nat × Nat)) (filter : Bool)
    (r c : Nat) (hc : c < 32) (hcfg : ∀ p ∈ wake_cfg, p.2 < 32) :
    ((tegra_kbc_setup_wakekeys wake_cfg filter) r).testBit c =
      (filter && !wake_cfg.isEmpty && !(decide ((r, c) ∈ wake_cfg))) := by
  cases filter
  · simp [tegra_kbc_setup_wakekeys, Nat.zero_testBit]
  · cases wake_cfg with
    | nil => simp [tegra_kbc_setup_wakekeys, Nat.zero_testBit]
    | cons p rest =>
      have hsetup : tegra_kbc_setup_wakekeys (p :: rest) true =
          (p :: rest).foldl
            (fun ms rc => fun row =>
              if row = rc.1 then ms rc.1 &&& (2 ^ 32 - 1 - (1 <<< rc.2))
              else ms row)
            (fun _ => 2 ^ 32 - 1) := by
        simp [tegra_kbc_setup_wakekeys]
      rw [hsetup, wakekeys_foldl_bit _ _ _ _ hc hcfg]
      have h1 := ones_bit c hc
      simp [h1]

/-- Witness for C8: with the single wake key (2, 3) and filtering active,
the mask bit at row 2, column 3 is clear (wake-capable). -/
theorem setup_wakekeys_mask_witness :
    ((tegra_kbc_setup_wakekeys [(2, 3)] true) 2).testBit 3 =
      (true && !([(2, 3)] : List (Nat × Nat)).isEmpty &&
        !(decide ((2, 3) ∈ ([(2, 3)] : List (Nat × Nat))))) :=
  setup_wakekeys_mask [(2, 3)] true 2 3 (by decide) (by decide)

/-- Claim C6: CurrentKeys tracks exactly the pressed output codes.  For
both operations that touch CurrentKeys (reporting or discarding a sample
in tegra_kbc_report_keys, and a timer fire of tegra_kbc_keypress_timer in
either branch), the new CurrentKeys holds a code c exactly when, after the
emitted events, c counts as pressed (its last press/release event was a
press, or it was tracked before and no event for it was emitted). -/
theorem current_keys_invariant (kbc : Kbc) (int0 w0 w1 c : Nat) :
    ((tegra_kbc_report_keys kbc w0 w1).2.current_keys.contains c =
      netPressed (kbc.current_keys.contains c)
        (tegra_kbc_report_keys kbc w0 w1).1 c) ∧
    ((tegra_kbc_keypress_timer kbc int0 w0 w1).kbc.current_keys.contains c =
      netPressed (kbc.current_keys.contains c)
        (tegra_kbc_keypress_timer kbc int0 w0 w1).events c) :=
  ⟨report_keys_tracks kbc w0 w1 c, keypress_timer_tracks kbc int0 w0 w1 c⟩

/-- Claim C2: a reported (non-discarded) sample emits, in order, one
release per old output code absent from the new set, then for each new
entry a raw scan-code event followed by a press event (also for keys
already down), then one sync marker; afterwards CurrentKeys equals the new
set of output codes. -/
theorem report_event_order (kbc : Kbc) (w0 w1 : Nat)
    (h : ghostDiscard kbc w0 w1 = false) :
    (tegra_kbc_report_keys kbc w0 w1).1 =
      releasesSpec kbc.current_keys
          ((sampleFinalEntries kbc w0 w1).map Prod.snd) ++
        pressesSpec (sampleFinalEntries kbc w0 w1) ++ [Event.sync] ∧
    (tegra_kbc_report_keys kbc w0 w1).2.current_keys =
      (sampleFinalEntries kbc w0 w1).map Prod.snd := by
  simp [tegra_kbc_report_keys, h, released_keys_eq, pressed_keys_eq]

/-- Witness for C2: one pressed key (byte 0x80, scan code 0) with key 5
previously down releases 5, then presses keymap(0) = 1, then syncs. -/
theorem report_event_order_witness :
    (tegra_kbc_report_keys sampleKbc 128 0).1 =
      releasesSpec sampleKbc.current_keys
          ((sampleFinalEntries sampleKbc 128 0).map Prod.snd) ++
        pressesSpec (sampleFinalEntries sampleKbc 128 0) ++ [Event.sync] ∧
    (tegra_kbc_report_keys sampleKbc 128 0).2.current_keys =
      (sampleFinalEntries sampleKbc 128 0).map Prod.snd :=
  report_event_order sampleKbc 128 0 (by decide)

/-- Claim C3: a timer fire that reads zero FIFO occupancy emits one
release per key in CurrentKeys in stored order, then a sync; CurrentKeys
becomes empty, the FIFO interrupt is re-enabled and the timer is not
re-armed. -/
theorem timer_zero_occupancy (kbc : Kbc) (int0 w0 w1 : Nat)
    (h : (int0 >>> 4) &&& 15 = 0) :
    tegra_kbc_keypress_timer kbc int0 w0 w1 =
      { events := kbc.current_keys.map (fun k => Event.key k false) ++
          [Event.sync],
        kbc := { kbc with current_keys := [] },
        rearm_delay := none,
        fifo_int_enable := true } := by
  simp [tegra_kbc_keypress_timer, h]

/-- Witness for C3 at interrupt-status word 0. -/
theorem timer_zero_occupancy_witness :
    tegra_kbc_keypress_timer sampleKbc 0 0 0 =
      { events := sampleKbc.current_keys.map (fun k => Event.key k false) ++
          [Event.sync],
        kbc := { sampleKbc with current_keys := [] },
        rearm_delay := none,
        fifo_int_enable := true } :=
  timer_zero_occupancy sampleKbc 0 0 0 (by decide)

/-- Claim C7: a timer fire that reads non-zero FIFO occupancy reports the
sample exactly as tegra_kbc_report_keys does and re-arms the timer, after
repoll_dly ms when the occupancy is exactly 1 and after the minimal 1 ms
otherwise; the FIFO interrupt is not re-enabled. -/
theorem timer_nonzero_occupancy (kbc : Kbc) (int0 w0 w1 : Nat)
    (h : (int0 >>> 4) &&& 15 ≠ 0) :
    tegra_kbc_keypress_timer kbc int0 w0 w1 =
      { events := (tegra_kbc_report_keys kbc w0 w1).1,
        kbc := (tegra_kbc_report_keys kbc w0 w1).2,
        rearm_delay := some (if (int0 >>> 4) &&& 15 = 1 then kbc.repoll_dly else 1),
        fifo_int_enable := false } := by
  simp [tegra_kbc_keypress_timer, h]

/-- Witness for C7 at interrupt-status word 0x10 (occupancy 1). -/
theorem timer_nonzero_occupancy_witness :
    tegra_kbc_keypress_timer sampleKbc 16 128 0 =
      { events := (tegra_kbc_report_keys sampleKbc 128 0).1,
        kbc := (tegra_kbc_report_keys sampleKbc 128 0).2,
        rearm_delay :=
          some (if (16 >>> 4) &&& 15 = 1 then sampleKbc.repoll_dly else 1),
        fifo_int_enable := false } :=
  timer_nonzero_occupancy sampleKbc 16 128 0 (by decide)

/-- Claim C9: tegra_kbc_stop is total on device states and idempotent: a
second stop yields the same device state, and after a stop the controller
enable bit is clear, the interrupt is masked, the timer cancelled, the
clock off and is_open = 0. -/
theorem stop_idempotent (d : Dev) :
    tegra_kbc_stop (tegra_kbc_stop d) = tegra_kbc_stop d ∧
    (tegra_kbc_stop d).control &&& 1 = 0 ∧
    (tegra_kbc_stop d).irq_enabled = false ∧
    (tegra_kbc_stop d).timer_pending = false ∧
    (tegra_kbc_stop d).clk_enabled = false ∧
    (tegra_kbc_stop d).is_open = 0 := by
  have hm : ((2 : Nat) ^ 32 - 2) &&& 1 = 0 := by decide
  refine ⟨?_, ?_, rfl, rfl, rfl, rfl⟩
  · simp [tegra_kbc_stop, Nat.land_assoc, Nat.and_self]
  · show d.control &&& (2 ^ 32 - 2) &&& 1 = 0
    rw [Nat.land_assoc, hm, Nat.and_zero]

/-- Claim C10: the interrupt handler writes back exactly the status value
it read (acknowledging all pending bits once), and when neither the
FIFO-threshold bit (bit 2) nor the keypress bit (bit 0) is set it has no
other effect: no timer armed, the FIFO interrupt enable untouched, and the
driver state (CurrentKeys, keypress_caused_wake) unchanged. -/
theorem isr_ack_and_frame (kbc : Kbc) (int0 : Nat) :
    (tegra_kbc_isr kbc int0).ack = int0 ∧
    (int0 &&& 4 = 0 → int0 &&& 1 = 0 →
      tegra_kbc_isr kbc int0 =
        { ack := int0, kbc := kbc, fifo_int_disable := false,
          timer_armed := none }) := by
  constructor
  · unfold tegra_kbc_isr
    split_ifs <;> rfl
  · intro h4 h1
    simp [tegra_kbc_isr, h4, h1]

/-- Witness for C10 at status word 8 (neither bit 2 nor bit 0 set). -/
theorem isr_ack_and_frame_witness :
    tegra_kbc_isr sampleKbc 8 =
      { ack := 8, kbc := sampleKbc, fifo_int_disable := false,
        timer_armed := none } :=
  (isr_ack_and_frame sampleKbc 8).2 (by decide) (by decide)

/-- Claim C1: the ghost filter discards a decoded sample exactly when it
is enabled, the sample (after Fn-key consumption) has at least 3 entries,
some pair of its positions shares a row and some pair shares a column;
a discarded sample emits nothing and leaves the state unchanged, and any
other sample is processed normally (releases, presses, sync, update). -/
theorem ghost_filter_rule (kbc : Kbc) (w0 w1 : Nat) :
    (ghostDiscard kbc w0 w1 =
      (kbc.use_ghost_filter &&
        decide (3 ≤ (sampleDecode kbc w0 w1).1.length) &&
        hasPairSharing (fun s => s >>> KBC_ROW_SHIFT)
          ((sampleDecode kbc w0 w1).1.map Prod.fst) &&
        hasPairSharing (fun s => s &&& 7)
          ((sampleDecode kbc w0 w1).1.map Prod.fst))) ∧
    (tegra_kbc_report_keys kbc w0 w1 =
      if ghostDiscard kbc w0 w1 then ([], kbc)
      else
        (releasesSpec kbc.current_keys
            ((sampleFinalEntries kbc w0 w1).map Prod.snd) ++
           pressesSpec (sampleFinalEntries kbc w0 w1) ++ [Event.sync],
         { kbc with
            current_keys := (sampleFinalEntries kbc w0 w1).map Prod.snd })) := by
  constructor
  · unfold ghostDiscard
    by_cases hf : kbc.use_ghost_filter = true ∧
        3 ≤ (sampleDecode kbc w0 w1).1.length
    · rw [if_pos hf, ghostLoop_eq]
      simp [hf.1, hf.2, Bool.and_comm]
    · rw [if_neg hf]
      rcases not_and_or.mp hf with h | h
      · have hh : kbc.use_ghost_filter = false := by simpa using h
        simp [hh]
      · have hh : decide (3 ≤ (sampleDecode kbc w0 w1).1.length) = false := by
          simpa using h
        simp [hh]
  · by_cases hg : ghostDiscard kbc w0 w1
    · simp [tegra_kbc_report_keys, hg]
    · simp [tegra_kbc_report_keys, hg, released_keys_eq, pressed_keys_eq]

/-- Claim C4: one FIFO read cycle delivers exactly KBC_MAX_KPENT byte
lanes (two 32-bit words), and the decode keeps, in lane order, exactly the
lanes whose valid flag (bit 7) is set, each contributing the scan code
(row << ROW_SHIFT) | column built from bits 3-6 and 0-2 together with its
keymap entry (with the Fn key consumed rather than counted); invalid lanes
are skipped without being counted. -/
theorem fifo_decode (keymap : Nat → Nat) (useFn : Bool) (w0 w1 : Nat) :
    (fifoBytes w0 w1).length = KBC_MAX_KPENT ∧
    (decodeEntries keymap useFn (fifoBytes w0 w1)).1 =
      (((fifoBytes w0 w1).filter (fun b => b.testBit 7)).map
          (fun b => (specScanCode b, keymap (specScanCode b)))).filter
        (fun e => !(useFn && e.2 == KEY_FN)) :=
  ⟨rfl, decodeEntries_fst_eq keymap useFn _ (fifoBytes_bound w0 w1)⟩

/-- Claim C5: the Fn flag of a decoded sample is set exactly when the
alternate-layer feature is on and some valid lane maps to KEY_FN; the
Fn key itself never appears among the reported entries; and when the flag
is set every remaining entry has KBC_MAX_KEY added to its scan code and is
looked up again in the keymap (the alternate table), while without the
flag the entries are used unchanged. -/
theorem fn_layer_remap (kbc : Kbc) (w0 w1 : Nat) :
    ((sampleDecode kbc w0 w1).2 =
      (kbc.use_fn_map &&
        (fifoBytes w0 w1).any
          (fun b => b.testBit 7 && kbc.keycode (specScanCode b) == KEY_FN))) ∧
    ((sampleDecode kbc w0 w1).1.all
        (fun e => !(kbc.use_fn_map && e.2 == KEY_FN)) = true) ∧
    (sampleFinalEntries kbc w0 w1 =
      if (sampleDecode kbc w0 w1).2 then
        (sampleDecode kbc w0 w1).1.map
          (fun e => (e.1 + KBC_MAX_KEY, kbc.keycode (e.1 + KBC_MAX_KEY)))
      else (sampleDecode kbc w0 w1).1) := by
  refine ⟨?_, ?_, rfl⟩
  · rw [sampleDecode, decodeEntries_snd_eq _ _ _ (fifoBytes_bound w0 w1)]
    cases hu : kbc.use_fn_map <;> simp
  · rw [sampleDecode, decodeEntries_fst_eq _ _ _ (fifoBytes_bound w0 w1)]
    apply List.all_eq_true.mpr
    intro e he
    exact (List.mem_filter.mp he).2

end TegraKbc
